import Mathlib

/-!
Shallow embedding of the UUID analysis core of `src/utils.js` from the
uuid-generator-actor-mcp repository, together with theorems settling the
frozen claims about it.

Strings are modelled by Lean `String`; the JavaScript `toLowerCase` /
`toUpperCase` calls act on ASCII data here, which coincides with the core
`Char.toLower` / `Char.toUpper` mappings.  JavaScript `BigInt` arithmetic is
modelled by `Nat` (shifts and ors are the same operators), the truncating
`BigInt` division by `Int.tdiv`, and `Date.toISOString` by an explicit
proleptic-Gregorian conversion (`isoOfMillis`).
-/

namespace UUIDUtils

/-- `uuid.replace` with the global dash regex: remove every dash. -/
def stripDashes (s : String) : String := ⟨s.data.filter (fun c => c != '-')⟩

/-- `s.toLowerCase()` on ASCII data. -/
def toLowerStr (s : String) : String := ⟨s.data.map Char.toLower⟩

/-- `s.toUpperCase()` on ASCII data. -/
def toUpperStr (s : String) : String := ⟨s.data.map Char.toUpper⟩

/-- dash removal followed by `toLowerCase()`: the normalization used at the
top of `analyzeUUID` and `convertUUIDFormat`. -/
def normalizeUUID (s : String) : String := toLowerStr (stripDashes s)

/-- Is `c` a lowercase hexadecimal digit (`0`-`9` or `a`-`f`)? -/
def isLowerHexDigit (c : Char) : Bool :=
  (48 ≤ c.toNat && c.toNat ≤ 57) || (97 ≤ c.toNat && c.toNat ≤ 102)

/-- `parseInt(c, 16)` for a single lowercase character (`0` on failure,
matching how a non-digit behaves downstream of the validation gate). -/
def hexVal (c : Char) : Nat :=
  if 48 ≤ c.toNat ∧ c.toNat ≤ 57 then c.toNat - 48
  else if 97 ≤ c.toNat ∧ c.toNat ≤ 102 then c.toNat - 87
  else 0

/-- `parseInt(s, 16)` for a string of lowercase hex digits. -/
def hexToNat (l : List Char) : Nat := l.foldl (fun acc c => 16 * acc + hexVal c) 0

/-- `s.slice(a, b)` for `a ≤ b`. -/
def sliceStr (s : String) (a b : Nat) : String := ⟨(s.data.drop a).take (b - a)⟩

/-- The re-grouping into the standard 8-4-4-4-12 dashed form used by
`analyzeUUID` and `convertUUIDFormat`. -/
def formatted32 (n : String) : String :=
  sliceStr n 0 8 ++ "-" ++ sliceStr n 8 12 ++ "-" ++ sliceStr n 12 16 ++ "-" ++
    sliceStr n 16 20 ++ "-" ++ sliceStr n 20 32

/-- Does the variant nibble match one of the four recognized variant
encodings (`0xxx`, `10xx`, `110x`, `111x`)? -/
def variantRecognized (d : Nat) : Bool :=
  (d &&& 0x8 == 0) || (d &&& 0xC == 0x8) || (d &&& 0xE == 0xC) || (d &&& 0xE == 0xE)

/-- Modelled from the spec: the `validate` function imported from the external
`uuid` npm package in `src/utils.js` is not part of this repository.  Per the
spec, validity holds iff after stripping dashes and lowercasing the input is
exactly 32 hexadecimal characters and the variant nibble (the 17th hex digit)
matches one of the four recognized variant encodings. -/
def validate (s : String) : Bool :=
  let n := normalizeUUID s
  n.length == 32 && n.data.all isLowerHexDigit &&
    variantRecognized (hexVal (n.data.getD 16 '0'))

/-- Modelled from the spec: the `version` function imported from the external
`uuid` npm package is not part of this repository.  Per the spec, it is the
integer encoded in the single hex digit at position 12 of the normalized
32-digit string. -/
def versionNibble (s : String) : Nat := hexVal ((normalizeUUID s).data.getD 12 '0')

/-- `validateUUID` from `src/utils.js` (the `try/catch` is unreachable in this
total model). -/
def validateUUID (uuid : String) : Bool := validate uuid

/-- `getUUIDVersion` from `src/utils.js`. -/
def getUUIDVersion (uuid : String) : Option Nat :=
  if validate uuid = false then none else some (versionNibble uuid)

/-- `getVariant` from `src/utils.js`. -/
def getVariant (normalizedUUID : String) : String :=
  let variantByte := hexVal (normalizedUUID.data.getD 16 '0')
  if variantByte &&& 0x8 = 0 then "NCS backward compatible"
  else if variantByte &&& 0xC = 0x8 then "RFC 4122"
  else if variantByte &&& 0xE = 0xC then "Microsoft"
  else "Reserved for future use"

/-- Zero-pad a number below 100 to two decimal digits. -/
def pad2 (n : Nat) : String := if n < 10 then "0" ++ Nat.repr n else Nat.repr n

/-- Zero-pad a number below 1000 to three decimal digits. -/
def pad3 (n : Nat) : String :=
  if n < 10 then "00" ++ Nat.repr n
  else if n < 100 then "0" ++ Nat.repr n
  else Nat.repr n

/-- Zero-pad a number below 10000 to four decimal digits. -/
def pad4 (n : Nat) : String :=
  if n < 10 then "000" ++ Nat.repr n
  else if n < 100 then "00" ++ Nat.repr n
  else if n < 1000 then "0" ++ Nat.repr n
  else Nat.repr n

/-- Civil (proleptic Gregorian) date from a count of days since 1970-01-01,
the calendar computation underlying JavaScript `Date`. -/
def civilFromDays (z : Int) : Int × Nat × Nat :=
  let zz := z + 719468
  let era : Int := zz.ediv 146097
  let doe : Nat := (zz.emod 146097).toNat
  let yoe : Nat := (doe - doe / 1460 + doe / 36524 - doe / 146096) / 365
  let doy : Nat := doe - (365 * yoe + yoe / 4 - yoe / 100)
  let mp : Nat := (5 * doy + 2) / 153
  let d : Nat := doy - (153 * mp + 2) / 5 + 1
  let m : Nat := if mp < 10 then mp + 3 else mp - 9
  let y : Int := era * 400 + yoe
  (if m ≤ 2 then y + 1 else y, m, d)

/-- `new Date(ms).toISOString()` for epoch milliseconds whose year lands in
0..9999 (every version-1 timestamp decoded below does). -/
def isoOfMillis (ms : Int) : String :=
  let days := ms.ediv 86400000
  let msod : Nat := (ms.emod 86400000).toNat
  let c := civilFromDays days
  pad4 c.1.toNat ++ "-" ++ pad2 c.2.1 ++ "-" ++ pad2 c.2.2 ++ "T" ++
    pad2 (msod / 3600000) ++ ":" ++ pad2 (msod % 3600000 / 60000) ++ ":" ++
    pad2 (msod % 60000 / 1000) ++ "." ++ pad3 (msod % 1000) ++ "Z"

/-- The timestamp record produced for version-1 identifiers.  The source
stores `raw` as the decimal string `timestamp.toString()`; it is kept here as
the numeric interval count itself. -/
structure V1Timestamp where
  iso : String
  unix : Int
  raw : Nat
deriving Repr, DecidableEq

/-- `extractV1Timestamp` from `src/utils.js`.  The `try/catch` there can only
fire on a `Date` range overflow, which a 60-bit interval count can never
reach, so this model always returns `some`. -/
def extractV1Timestamp (normalizedUUID : String) : Option V1Timestamp :=
  let timeLow := hexToNat (normalizedUUID.data.take 8)
  let timeMid := hexToNat ((normalizedUUID.data.drop 8).take 4)
  let timeHighAndVersion := hexToNat ((normalizedUUID.data.drop 12).take 4)
  let timeHighValue := timeHighAndVersion &&& 0x0FFF
  let timestamp := (timeHighValue <<< 48) ||| (timeMid <<< 32) ||| timeLow
  let unixTimestamp : Int := Int.tdiv ((timestamp : Int) - 122192928000000000) 10000
  some { iso := isoOfMillis unixTimestamp, unix := unixTimestamp, raw := timestamp }

/-- The analysis record returned by `analyzeUUID`; absent JavaScript object
fields are `none`. -/
structure Analysis where
  valid : Bool
  error : Option String := none
  uuid : Option String := none
  version : Option Nat := none
  format : Option String := none
  variant : Option String := none
  timestamp : Option V1Timestamp := none
  type : Option String := none
deriving Repr, DecidableEq

/-- `analyzeUUID` from `src/utils.js`. -/
def analyzeUUID (uuid : String) : Analysis :=
  let normalized := normalizeUUID uuid
  if normalized.length ≠ 32 then
    { valid := false, error := some "Invalid UUID length" }
  else
    let formatted := formatted32 normalized
    if validate formatted = false then
      { valid := false, error := some "Invalid UUID format" }
    else
      let uuidVersion := versionNibble formatted
      { valid := true
        uuid := some formatted
        version := some uuidVersion
        format := some (if uuid.data.contains '-' then "standard" else "compact")
        variant := some (getVariant normalized)
        timestamp := if uuidVersion = 1 then extractV1Timestamp normalized else none
        type :=
          if uuidVersion = 1 then some "timestamp-based"
          else if uuidVersion = 4 then some "random"
          else if uuidVersion = 5 then some "namespace-based (SHA-1)"
          else if uuidVersion = 3 then some "namespace-based (MD5)"
          else none }

/-- `convertUUIDFormat` from `src/utils.js`; the two `throw` statements are
modelled by `Except.error`. -/
def convertUUIDFormat (uuid : String) (uppercase removeDashes : Bool) :
    Except String String :=
  let normalized := normalizeUUID uuid
  if normalized.length ≠ 32 then .error "Invalid UUID length"
  else
    let result := formatted32 normalized
    if validate result = false then .error "Invalid UUID format"
    else
      let result := if removeDashes then stripDashes result else result
      let result := if uppercase then toUpperStr result else result
      .ok result

/-- `toLowerCase()` followed by dash removal: the normalization used inside
`checkCollisions`. -/
def collNormalize (s : String) : String := stripDashes (toLowerStr s)

/-- One entry of the `collisions` array of `checkCollisions`. -/
structure CollisionEntry where
  uuid : String
  index : Nat
deriving Repr, DecidableEq

/-- The record returned by `checkCollisions`. -/
structure CollisionReport where
  total : Nat
  unique : Nat
  duplicates : Nat
  collisions : List CollisionEntry
deriving Repr, DecidableEq

/-- The loop of `checkCollisions`: walk the inputs with the current index, the
set of seen normalized forms (a duplicate-free list) and the accumulated
duplicate entries. -/
def checkCollisionsGo :
    List String → Nat → List String → List CollisionEntry →
      List String × List CollisionEntry
  | [], _, seen, dups => (seen, dups)
  | u :: rest, i, seen, dups =>
    let n := collNormalize u
    if seen.contains n then
      checkCollisionsGo rest (i + 1) seen (dups ++ [{ uuid := u, index := i }])
    else
      checkCollisionsGo rest (i + 1) (seen ++ [n]) dups

/-- `checkCollisions` from `src/utils.js` (batch elements are taken as plain
strings, the shape every claim uses). -/
def checkCollisions (uuids : List String) : CollisionReport :=
  let r := checkCollisionsGo uuids 0 [] []
  { total := uuids.length, unique := r.1.length, duplicates := r.2.length,
    collisions := r.2 }

/-- One entry of the `results` array of `batchValidate`. -/
structure ValidationEntry where
  uuid : String
  valid : Bool
  version : Option Nat
deriving Repr, DecidableEq

/-- The record returned by `batchValidate`. -/
structure BatchValidation where
  total : Nat
  valid : Nat
  invalid : Nat
  results : List ValidationEntry
deriving Repr, DecidableEq

/-- `batchValidate` from `src/utils.js`. -/
def batchValidate (uuids : List String) : BatchValidation :=
  let results := uuids.map (fun u =>
    let valid := validateUUID u
    { uuid := u, valid := valid,
      version := if valid then getUUIDVersion u else none : ValidationEntry })
  { total := uuids.length
    valid := (results.filter (fun r => r.valid)).length
    invalid := (results.filter (fun r => !r.valid)).length
    results := results }

/-- Increment the histogram count of key `k` (JavaScript
`counts[k] = (counts[k] || 0) + 1` over an object used as a map). -/
def bump {α : Type} [DecidableEq α] (l : List (α × Nat)) (k : α) : List (α × Nat) :=
  match l with
  | [] => [(k, 1)]
  | (k₀, v) :: rest => if k₀ = k then (k₀, v + 1) :: rest else (k₀, v) :: bump rest k

/-- Total weight of a histogram. -/
def histTotal {α : Type} (l : List (α × Nat)) : Nat := (l.map Prod.snd).sum

/-- Value of a histogram at key `k` (0 when absent). -/
def histCount {α : Type} [DecidableEq α] (l : List (α × Nat)) (k : α) : Nat :=
  ((l.filter (fun p => p.1 = k)).map Prod.snd).sum

/-- The record returned by `batchAnalyze`. -/
structure BatchAnalysis where
  total : Nat
  valid : Nat
  invalid : Nat
  versionBreakdown : List (Nat × Nat)
  results : List Analysis
deriving Repr, DecidableEq

/-- `batchAnalyze` from `src/utils.js`.  The histogram guard translates the
JavaScript truthiness test `r.valid && r.version`: a missing version (`none`)
and version `0` are both falsy and contribute nothing. -/
def batchAnalyze (uuids : List String) : BatchAnalysis :=
  let results := uuids.map analyzeUUID
  let validCount := (results.filter (fun r => r.valid)).length
  let versionCounts := results.foldl
    (fun acc r =>
      if r.valid && !(r.version.getD 0 == 0) then bump acc (r.version.getD 0) else acc)
    []
  { total := uuids.length
    valid := validCount
    invalid := results.length - validCount
    versionBreakdown := versionCounts
    results := results }

/-- The record returned by `generateStatistics`. -/
structure Statistics where
  total : Nat
  versions : List (Nat × Nat)
  standard : Nat
  compact : Nat
  variants : List (String × Nat)
deriving Repr, DecidableEq

/-- The preliminary re-grouping
`replace(/(.{8})(.{4})(.{4})(.{4})(.{12})/, '$1-$2-$3-$4-$5')` applied inside
`generateStatistics`: when at least 32 characters are present the first 32 are
regrouped and the remainder is appended unchanged, otherwise the regex does
not match and the string is untouched. -/
def regroup (s : String) : String :=
  if 32 ≤ s.length then formatted32 ⟨s.data.take 32⟩ ++ ⟨s.data.drop 32⟩ else s

/-- `generateStatistics` from `src/utils.js` (batch elements taken as plain
strings). -/
def generateStatistics (uuids : List String) : Statistics :=
  uuids.foldl
    (fun stats uuid =>
      if validate (regroup (stripDashes uuid)) = false then stats
      else
        let analysis := analyzeUUID uuid
        if analysis.valid then
          { stats with
            versions := bump stats.versions (analysis.version.getD 0)
            standard :=
              if analysis.format = some "standard" then stats.standard + 1
              else stats.standard
            compact :=
              if analysis.format = some "compact" then stats.compact + 1
              else stats.compact
            variants := bump stats.variants (analysis.variant.getD "") }
        else stats)
    { total := uuids.length, versions := [], standard := 0, compact := 0, variants := [] }

/-- Reference description of the collision entries: walking the inputs in
order, an element is recorded exactly when its normalized form already occurs
among the normalized forms of the strictly earlier elements. -/
def collisionSpecAux : List String → List String → Nat → List CollisionEntry
  | [], _, _ => []
  | u :: rest, earlier, i =>
    if (earlier.map collNormalize).contains (collNormalize u) then
      { uuid := u, index := i } :: collisionSpecAux rest (earlier ++ [u]) (i + 1)
    else
      collisionSpecAux rest (earlier ++ [u]) (i + 1)

/-- The collision entries a sequence of inputs should produce. -/
def collisionSpec (uuids : List String) : List CollisionEntry :=
  collisionSpecAux uuids [] 0

/-!  ## Helper lemmas -/

theorem hexVal_lt_sixteen (c : Char) : hexVal c < 16 := by
  unfold hexVal
  split
  · omega
  · split <;> omega

theorem variantRecognized_of_lt {d : Nat} (h : d < 16) : variantRecognized d = true := by
  interval_cases d <;> decide

theorem validate_eq_true_iff (s : String) :
    validate s = true ↔
      (normalizeUUID s).length = 32 ∧
        ∀ c ∈ (normalizeUUID s).data, isLowerHexDigit c = true := by
  simp only [validate, Bool.and_eq_true, beq_iff_eq, List.all_eq_true]
  constructor
  · rintro ⟨⟨h1, h2⟩, -⟩
    exact ⟨h1, h2⟩
  · rintro ⟨h1, h2⟩
    exact ⟨⟨h1, h2⟩, variantRecognized_of_lt (hexVal_lt_sixteen _)⟩

theorem length_filter_add_length_filter_not {α : Type} (l : List α) (p : α → Bool) :
    (l.filter p).length + (l.filter fun a => !p a).length = l.length := by
  induction l with
  | nil => rfl
  | cons a l ih => cases h : p a <;> simp [List.filter_cons, h] <;> omega

theorem stripDashes_idem (s : String) : stripDashes (stripDashes s) = stripDashes s := by
  simp only [stripDashes, List.filter_filter, Bool.and_self]

theorem normalizeUUID_stripDashes (s : String) :
    normalizeUUID (stripDashes s) = normalizeUUID s := by
  unfold normalizeUUID
  rw [stripDashes_idem]

/-!  ## Claim theorems -/

/-- C1: `validateUUID` returns `true` iff, after stripping dashes and
lowercasing, the remainder is exactly 32 hexadecimal characters; the
variant-nibble condition of the validation gate is satisfied by every hex
digit (all four recognized variant encodings together cover every nibble), so
no constraint on the version or variant nibble remains, and every other input
yields `false` (the function is total, so it never raises). -/
theorem validateUUID_true_iff (s : String) :
    validateUUID s = true ↔
      (normalizeUUID s).length = 32 ∧
        ∀ c ∈ (normalizeUUID s).data, isLowerHexDigit c = true :=
  validate_eq_true_iff s

/-- Witness for C1: a well-formed 8-4-4-4-12 string with version nibble `9`
and variant nibble `7` (outside every released version and outside the RFC
variant) still validates. -/
theorem validateUUID_true_iff_witness :
    validateUUID "f47ac10b-58cc-9372-7567-0e02b2c3d479" = true :=
  (validateUUID_true_iff "f47ac10b-58cc-9372-7567-0e02b2c3d479").mpr (by decide)

/-- C4: `analyzeUUID` reports `valid = false` with error `"Invalid UUID
length"` exactly when the dash-stripped lowercased input does not have length
32, reports `valid = false` with error `"Invalid UUID format"` exactly when
that length is 32 but the re-grouped 8-4-4-4-12 form fails the validation
gate, and (being a total function) never raises; in particular
`analyzeUUID "not-a-uuid"` yields the length error. -/
theorem analyzeUUID_error_cases (s : String) :
    ((analyzeUUID s).valid = false ∧ (analyzeUUID s).error = some "Invalid UUID length"
        ↔ (normalizeUUID s).length ≠ 32) ∧
    ((analyzeUUID s).valid = false ∧ (analyzeUUID s).error = some "Invalid UUID format"
        ↔ (normalizeUUID s).length = 32 ∧
            validate (formatted32 (normalizeUUID s)) = false) ∧
    analyzeUUID "not-a-uuid" = { valid := false, error := some "Invalid UUID length" } := by
  refine ⟨?_, ?_, by decide⟩ <;>
  · by_cases hlen : (normalizeUUID s).length = 32
    · by_cases hval : validate (formatted32 (normalizeUUID s)) = false <;>
        simp [analyzeUUID, hlen, hval]
    · simp [analyzeUUID, hlen]

/-- Witness for C4: the two error characterizations evaluated at concrete
inputs. -/
theorem analyzeUUID_error_cases_witness :
    ((analyzeUUID "ab").valid = false ∧
      (analyzeUUID "ab").error = some "Invalid UUID length") ∧
    ((analyzeUUID "zzzzzzzzzzzzzzzzzzzzzzzzzzzzzzzz").valid = false ∧
      (analyzeUUID "zzzzzzzzzzzzzzzzzzzzzzzzzzzzzzzz").error = some "Invalid UUID format") :=
  ⟨(analyzeUUID_error_cases "ab").1.mpr (by decide),
   (analyzeUUID_error_cases "zzzzzzzzzzzzzzzzzzzzzzzzzzzzzzzz").2.1.mpr (by decide)⟩

/-- C8: `getUUIDVersion` returns `none` when validation fails and otherwise
the integer value of the single hex digit at position 12 of the normalized
32-digit string (always below 16); it is a total function, so it never
raises. -/
theorem getUUIDVersion_characterization (s : String) :
    getUUIDVersion s =
      (if validateUUID s = true then some (versionNibble s) else none) ∧
    versionNibble s = hexVal ((normalizeUUID s).data.getD 12 '0') ∧
    versionNibble s < 16 := by
  refine ⟨?_, rfl, hexVal_lt_sixteen _⟩
  unfold getUUIDVersion validateUUID
  cases h : validate s <;> simp [h]

/-- C10: `analyzeUUID` strips dashes before checking anything, so an input and
its dash-free form agree on every field except `format`; in particular an
input with dashes in nonstandard positions is analyzed as valid with the same
normalized form and labeled `"standard"` merely because it contains a dash. -/
theorem analyzeUUID_dash_insensitive (s : String) :
    ((analyzeUUID (stripDashes s)).valid = (analyzeUUID s).valid ∧
     (analyzeUUID (stripDashes s)).error = (analyzeUUID s).error ∧
     (analyzeUUID (stripDashes s)).uuid = (analyzeUUID s).uuid ∧
     (analyzeUUID (stripDashes s)).version = (analyzeUUID s).version ∧
     (analyzeUUID (stripDashes s)).variant = (analyzeUUID s).variant ∧
     (analyzeUUID (stripDashes s)).timestamp = (analyzeUUID s).timestamp ∧
     (analyzeUUID (stripDashes s)).type = (analyzeUUID s).type) ∧
    analyzeUUID "f47ac10b58cc-4372a5670e02b2c3d479" =
      { valid := true, uuid := some "f47ac10b-58cc-4372-a567-0e02b2c3d479",
        version := some 4, format := some "standard", variant := some "RFC 4122",
        timestamp := none, type := some "random" } := by
  refine ⟨?_, by decide⟩
  have hn := normalizeUUID_stripDashes s
  by_cases hlen : (normalizeUUID s).length = 32
  · by_cases hval : validate (formatted32 (normalizeUUID s)) = false <;>
      simp [analyzeUUID, hn, hlen, hval]
  · simp [analyzeUUID, hn, hlen]

/-- C7: `batchValidate` applies the validator to each element in input order
without short-circuiting and never raises: the total equals the input length,
the results list mirrors the inputs in order, invalid elements carry a `none`
version, valid plus invalid counts equal the total, and the concrete example
`["validV4", "garbage"]` behaves as claimed. -/
theorem batchValidate_spec (uuids : List String) :
    (batchValidate uuids).total = uuids.length ∧
    (batchValidate uuids).results.map ValidationEntry.uuid = uuids ∧
    ((batchValidate uuids).results.all fun e => e.valid || e.version == none) = true ∧
    (batchValidate uuids).valid + (batchValidate uuids).invalid = uuids.length ∧
    batchValidate ["f47ac10b-58cc-4372-a567-0e02b2c3d479", "garbage"] =
      { total := 2, valid := 1, invalid := 1,
        results := [{ uuid := "f47ac10b-58cc-4372-a567-0e02b2c3d479",
                      valid := true, version := some 4 },
                    { uuid := "garbage", valid := false, version := none }] } := by
  refine ⟨rfl, ?_, ?_, ?_, by decide⟩
  · simp only [batchValidate, List.map_map]
    exact List.map_id uuids
  · rw [List.all_eq_true]
    intro e he
    simp only [batchValidate, List.mem_map] at he
    obtain ⟨u, -, rfl⟩ := he
    by_cases hv : validateUUID u <;> simp [hv]
  · have h := length_filter_add_length_filter_not
      (uuids.map fun u =>
        ({ uuid := u, valid := validateUUID u,
           version := if validateUUID u then getUUIDVersion u else none } : ValidationEntry))
      (fun r => r.valid)
    simpa [batchValidate] using h

/-!  ## Histogram lemmas -/

theorem histTotal_bump {α : Type} [DecidableEq α] (l : List (α × Nat)) (k : α) :
    histTotal (bump l k) = histTotal l + 1 := by
  induction l with
  | nil => rfl
  | cons p l ih =>
    obtain ⟨a, v⟩ := p
    by_cases h : a = k <;> simp [bump, h, histTotal] at ih ⊢ <;> omega

theorem histCount_cons {α : Type} [DecidableEq α] (a : α) (w : Nat)
    (l : List (α × Nat)) (v : α) :
    histCount ((a, w) :: l) v = (if a = v then w else 0) + histCount l v := by
  by_cases h : a = v <;> simp [histCount, h]

theorem histCount_bump {α : Type} [DecidableEq α] (l : List (α × Nat)) (k v : α) :
    histCount (bump l k) v = histCount l v + if k = v then 1 else 0 := by
  induction l with
  | nil => by_cases h : k = v <;> simp [bump, histCount, h]
  | cons p l ih =>
    obtain ⟨a, w⟩ := p
    by_cases hak : a = k
    · subst hak
      have hb : bump ((a, w) :: l) a = (a, w + 1) :: l := by simp [bump]
      rw [hb, histCount_cons, histCount_cons]
      by_cases hav : a = v <;> simp [hav] <;> omega
    · have hb : bump ((a, w) :: l) k = (a, w) :: bump l k := by simp [bump, hak]
      rw [hb, histCount_cons, histCount_cons, ih]
      omega

theorem foldl_bump_histTotal (results : List Analysis) (cond : Analysis → Bool)
    (key : Analysis → Nat) (acc : List (Nat × Nat)) :
    histTotal (results.foldl (fun a r => if cond r then bump a (key r) else a) acc) =
      histTotal acc + (results.filter cond).length := by
  induction results generalizing acc with
  | nil => simp
  | cons r rest ih =>
    cases h : cond r <;>
      simp [h, List.filter_cons, ih, histTotal_bump] <;> omega

theorem foldl_bump_histCount (results : List Analysis) (cond : Analysis → Bool)
    (key : Analysis → Nat) (acc : List (Nat × Nat)) (v : Nat) :
    histCount (results.foldl (fun a r => if cond r then bump a (key r) else a) acc) v =
      histCount acc v + (results.filter fun r => cond r && (key r == v)).length := by
  induction results generalizing acc with
  | nil => simp
  | cons r rest ih =>
    cases h : cond r
    · simp [h, List.filter_cons, ih]
    · by_cases hk : key r = v <;>
        simp [h, hk, List.filter_cons, ih, histCount_bump, beq_iff_eq] <;> omega

/-- C5 (amended): `batchAnalyze` analyzes each element; its version histogram
counts exactly the valid results whose detected version is nonzero (the
JavaScript truthiness test `r.valid && r.version` drops version 0, e.g. the
nil identifier), so the histogram weight equals the number of valid results
with nonzero version, each nonzero version key counts exactly its valid
occurrences, and validCount + invalidCount = total = input length. -/
theorem batchAnalyze_histogram (uuids : List String) :
    (batchAnalyze uuids).total = uuids.length ∧
    (batchAnalyze uuids).valid + (batchAnalyze uuids).invalid = uuids.length ∧
    histTotal (batchAnalyze uuids).versionBreakdown =
      ((uuids.map analyzeUUID).filter fun r => r.valid && !(r.version.getD 0 == 0)).length ∧
    ∀ v, v ≠ 0 →
      histCount (batchAnalyze uuids).versionBreakdown v =
        ((uuids.map analyzeUUID).filter fun r => r.valid && r.version.getD 0 == v).length := by
  refine ⟨rfl, ?_, ?_, ?_⟩
  · have hle := List.length_filter_le (fun r : Analysis => r.valid) (uuids.map analyzeUUID)
    have hml : (uuids.map analyzeUUID).length = uuids.length := List.length_map _ _
    simp only [batchAnalyze]
    omega
  · simpa [batchAnalyze, histTotal] using
      foldl_bump_histTotal (uuids.map analyzeUUID)
        (fun r => r.valid && !(r.version.getD 0 == 0)) (fun r => r.version.getD 0) []
  · intro v hv
    have h := foldl_bump_histCount (uuids.map analyzeUUID)
      (fun r => r.valid && !(r.version.getD 0 == 0)) (fun r => r.version.getD 0) [] v
    have hp : ∀ r : Analysis,
        ((r.valid && !(r.version.getD 0 == 0)) && (r.version.getD 0 == v))
          = (r.valid && (r.version.getD 0 == v)) := by
      intro r
      by_cases h0 : r.version.getD 0 = v
      · cases hrv : r.valid <;> simp [h0, beq_iff_eq, hv, hrv]
      · have hb : (r.version.getD 0 == v) = false := by
          simpa using h0
        simp [hb]
    rw [List.filter_congr (fun r _ => hp r)] at h
    simpa [batchAnalyze, histCount] using h

/-- Counterexample for C5 as stated: the nil identifier is valid with
version 0, which the histogram silently drops, so the histogram weight does
not equal the valid count. -/
theorem batchAnalyze_histogram_counterexample :
    (analyzeUUID "00000000-0000-0000-0000-000000000000").valid = true ∧
    (analyzeUUID "00000000-0000-0000-0000-000000000000").version = some 0 ∧
    (batchAnalyze ["00000000-0000-0000-0000-000000000000"]).valid = 1 ∧
    (batchAnalyze ["00000000-0000-0000-0000-000000000000"]).versionBreakdown = [] ∧
    histTotal (batchAnalyze ["00000000-0000-0000-0000-000000000000"]).versionBreakdown ≠
      (batchAnalyze ["00000000-0000-0000-0000-000000000000"]).valid := by
  decide

/-- Witness for C5: the per-key clause applied at version 4 on a concrete
batch. -/
theorem batchAnalyze_histogram_witness :
    histCount (batchAnalyze ["f47ac10b-58cc-4372-a567-0e02b2c3d479"]).versionBreakdown 4 =
      ((["f47ac10b-58cc-4372-a567-0e02b2c3d479"].map analyzeUUID).filter
        fun r => r.valid && r.version.getD 0 == 4).length :=
  (batchAnalyze_histogram ["f47ac10b-58cc-4372-a567-0e02b2c3d479"]).2.2.2 4 (by decide)

/-!  ## Valid-branch description of analyzeUUID -/

theorem analyzeUUID_valid_branch {s : String} (h : (analyzeUUID s).valid = true) :
    (normalizeUUID s).length = 32 ∧
    validate (formatted32 (normalizeUUID s)) = true ∧
    analyzeUUID s =
      { valid := true
        uuid := some (formatted32 (normalizeUUID s))
        version := some (versionNibble (formatted32 (normalizeUUID s)))
        format := some (if s.data.contains '-' then "standard" else "compact")
        variant := some (getVariant (normalizeUUID s))
        timestamp :=
          if versionNibble (formatted32 (normalizeUUID s)) = 1
          then extractV1Timestamp (normalizeUUID s) else none
        type :=
          if versionNibble (formatted32 (normalizeUUID s)) = 1 then some "timestamp-based"
          else if versionNibble (formatted32 (normalizeUUID s)) = 4 then some "random"
          else if versionNibble (formatted32 (normalizeUUID s)) = 5 then
            some "namespace-based (SHA-1)"
          else if versionNibble (formatted32 (normalizeUUID s)) = 3 then
            some "namespace-based (MD5)"
          else none } := by
  by_cases hlen : (normalizeUUID s).length = 32
  · by_cases hval : validate (formatted32 (normalizeUUID s)) = false
    · simp [analyzeUUID, hlen, hval] at h
    · refine ⟨hlen, by rwa [Bool.not_eq_false] at hval, ?_⟩
      simp [analyzeUUID, hlen, hval]
  · simp [analyzeUUID, hlen] at h

theorem getVariant_mem (n : String) :
    getVariant n = "NCS backward compatible" ∨ getVariant n = "RFC 4122" ∨
    getVariant n = "Microsoft" ∨ getVariant n = "Reserved for future use" := by
  simp only [getVariant]
  generalize hexVal (n.data.getD 16 '0') = d
  by_cases h1 : d &&& 8 = 0
  · exact Or.inl (by simp [h1])
  · by_cases h2 : d &&& 12 = 8
    · exact Or.inr (Or.inl (by simp [h1, h2]))
    · by_cases h3 : d &&& 14 = 12
      · exact Or.inr (Or.inr (Or.inl (by simp [h1, h2, h3])))
      · exact Or.inr (Or.inr (Or.inr (by simp [h1, h2, h3])))

/-- C9 (amended): the variant of a valid analysis is computed by `getVariant`
from the variant nibble and is one of the four labels; under the validation
gate, all four labels (including `"Microsoft"` and
`"Reserved for future use"`) are reachable by valid identifiers. -/
theorem analyzeUUID_variant_of_valid (s : String)
    (h : (analyzeUUID s).valid = true) :
    (analyzeUUID s).variant = some (getVariant (normalizeUUID s)) ∧
    (getVariant (normalizeUUID s) = "NCS backward compatible" ∨
     getVariant (normalizeUUID s) = "RFC 4122" ∨
     getVariant (normalizeUUID s) = "Microsoft" ∨
     getVariant (normalizeUUID s) = "Reserved for future use") := by
  obtain ⟨-, -, heq⟩ := analyzeUUID_valid_branch h
  refine ⟨by rw [heq], getVariant_mem (normalizeUUID s)⟩

/-- Counterexample for C9 as stated: an identifier with variant nibble `c`
passes validation, is analyzed valid with variant `"Microsoft"`, and that
variant reaches the histogram of `generateStatistics`. -/
theorem analyzeUUID_variant_counterexample :
    (analyzeUUID "f47ac10b-58cc-4372-c567-0e02b2c3d479").valid = true ∧
    (analyzeUUID "f47ac10b-58cc-4372-c567-0e02b2c3d479").variant = some "Microsoft" ∧
    (generateStatistics ["f47ac10b-58cc-4372-c567-0e02b2c3d479"]).variants =
      [("Microsoft", 1)] := by
  decide

/-- Witness for C9: the amended statement applied at a concrete RFC-variant
identifier. -/
theorem analyzeUUID_variant_of_valid_witness :
    (analyzeUUID "f47ac10b-58cc-4372-a567-0e02b2c3d479").variant =
      some (getVariant (normalizeUUID "f47ac10b-58cc-4372-a567-0e02b2c3d479")) :=
  (analyzeUUID_variant_of_valid "f47ac10b-58cc-4372-a567-0e02b2c3d479" (by decide)).1


/-!  ## Version-1 timestamp arithmetic -/

theorem hexToNat_foldl_lt (l : List Char) :
    ∀ a : Nat, l.foldl (fun acc c => 16 * acc + hexVal c) a < 16 ^ l.length * (a + 1) := by
  induction l with
  | nil => intro a; simpa using Nat.lt_succ_self a
  | cons c l ih =>
    intro a
    have h1 := ih (16 * a + hexVal c)
    have h2 : hexVal c < 16 := hexVal_lt_sixteen c
    have h3 : 16 ^ l.length * (16 * a + hexVal c + 1) ≤ 16 ^ (l.length + 1) * (a + 1) := by
      rw [pow_succ]
      have h4 : 16 * a + hexVal c + 1 ≤ 16 * (a + 1) := by omega
      calc 16 ^ l.length * (16 * a + hexVal c + 1)
          ≤ 16 ^ l.length * (16 * (a + 1)) := Nat.mul_le_mul_left _ h4
        _ = 16 ^ l.length * 16 * (a + 1) := by ring
    exact lt_of_lt_of_le h1 h3

theorem hexToNat_lt (l : List Char) : hexToNat l < 16 ^ l.length := by
  simpa [hexToNat] using hexToNat_foldl_lt l 0

theorem hexToNat_take_lt (l : List Char) (k : Nat) : hexToNat (l.take k) < 16 ^ k :=
  lt_of_lt_of_le (hexToNat_lt _)
    (Nat.pow_le_pow_right (by norm_num) (List.length_take_le k l))

theorem shift_or_eq_add {a b c : Nat} (hb : b < 65536) (hc : c < 4294967296) :
    (a <<< 48) ||| (b <<< 32) ||| c =
      a * 281474976710656 + b * 4294967296 + c := by
  rw [Nat.lor_assoc, Nat.shiftLeft_eq, Nat.shiftLeft_eq]
  have hc2 : c < 2 ^ 32 := by
    norm_num
    exact hc
  have h1 : b * 2 ^ 32 ||| c = b * 2 ^ 32 + c := by
    rw [Nat.mul_comm b (2 ^ 32), ← Nat.mul_add_lt_is_or hc2 b, Nat.mul_comm (2 ^ 32) b]
  rw [h1]
  have h2 : b * 2 ^ 32 + c < 2 ^ 48 := by
    have hb2 : b * 2 ^ 32 ≤ 65535 * 2 ^ 32 := Nat.mul_le_mul_right _ (by omega)
    norm_num at hb2 ⊢
    omega
  rw [Nat.mul_comm a (2 ^ 48), ← Nat.mul_add_lt_is_or h2 a]
  norm_num
  ring

theorem extractV1Timestamp_spec (n : String) :
    ∃ t, extractV1Timestamp n = some t ∧
      t.raw = hexToNat ((n.data.drop 12).take 4) % 4096 * 281474976710656 +
        hexToNat ((n.data.drop 8).take 4) * 4294967296 + hexToNat (n.data.take 8) ∧
      t.unix = Int.tdiv ((t.raw : Int) - 122192928000000000) 10000 ∧
      t.raw < 1152921504606846976 := by
  have hmask : hexToNat ((n.data.drop 12).take 4) &&& 4095 =
      hexToNat ((n.data.drop 12).take 4) % 4096 := by
    have h12 : (4095 : Nat) = 2 ^ 12 - 1 := by norm_num
    have := Nat.and_pow_two_sub_one_eq_mod (hexToNat ((n.data.drop 12).take 4)) 12
    rw [h12]
    simpa using this
  have hmid : hexToNat ((n.data.drop 8).take 4) < 65536 := by
    have := hexToNat_take_lt (n.data.drop 8) 4
    norm_num at this
    exact this
  have hlow : hexToNat (n.data.take 8) < 4294967296 := by
    have := hexToNat_take_lt n.data 8
    norm_num at this
    exact this
  have hor := shift_or_eq_add (a := hexToNat ((n.data.drop 12).take 4) &&& 4095)
    hmid hlow
  have hA : hexToNat ((n.data.drop 12).take 4) % 4096 < 4096 :=
    Nat.mod_lt _ (by norm_num)
  rw [hmask] at hor
  refine ⟨_, rfl, ?_, rfl, ?_⟩
  · simp only [extractV1Timestamp]
    rw [hmask, hor]
  · simp only [extractV1Timestamp]
    rw [hmask, hor]
    omega

/-- C2 (amended): for every valid version-1 identifier, the timestamp's raw
interval count is the 60-bit integer reassembled from the three time fields
(high 12 bits after masking, mid 16, low 32), and the Unix-epoch milliseconds
are obtained by subtracting 122192928000000000 and dividing by 10000 with
truncating integer division.  (The concrete example of the claim decodes to
2023-05-09T16:56:26.429Z, not 2023-04-20T15:30:42.000Z; see the
counterexample.) -/
theorem analyzeUUID_v1_timestamp (s : String)
    (h1 : (analyzeUUID s).valid = true)
    (h2 : (analyzeUUID s).version = some 1) :
    ∃ t, (analyzeUUID s).timestamp = some t ∧
      t.raw = hexToNat (((normalizeUUID s).data.drop 12).take 4) % 4096 * 281474976710656 +
        hexToNat (((normalizeUUID s).data.drop 8).take 4) * 4294967296 +
        hexToNat ((normalizeUUID s).data.take 8) ∧
      t.unix = Int.tdiv ((t.raw : Int) - 122192928000000000) 10000 ∧
      t.raw < 1152921504606846976 := by
  obtain ⟨-, -, heq⟩ := analyzeUUID_valid_branch h1
  rw [heq] at h2 ⊢
  simp only [Option.some.injEq] at h2
  simp only [h2, if_pos rfl]
  exact extractV1Timestamp_spec (normalizeUUID s)

/-- Counterexample for C2 as stated: the example identifier is version 1 with
RFC variant, but its embedded timestamp decodes to 2023-05-09T16:56:26.429Z
(Unix milliseconds 1683651386429), not to the claimed
2023-04-20T15:30:42.000Z. -/
theorem analyzeUUID_v1_timestamp_counterexample :
    (analyzeUUID "6fa459ea-ee8a-11ed-a05b-0242ac120003").version = some 1 ∧
    (analyzeUUID "6fa459ea-ee8a-11ed-a05b-0242ac120003").variant = some "RFC 4122" ∧
    ((analyzeUUID "6fa459ea-ee8a-11ed-a05b-0242ac120003").timestamp.map V1Timestamp.iso) =
      some "2023-05-09T16:56:26.429Z" ∧
    ((analyzeUUID "6fa459ea-ee8a-11ed-a05b-0242ac120003").timestamp.map V1Timestamp.unix) =
      some 1683651386429 ∧
    ((analyzeUUID "6fa459ea-ee8a-11ed-a05b-0242ac120003").timestamp.map V1Timestamp.raw) =
      some 139029441864292842 ∧
    ((analyzeUUID "6fa459ea-ee8a-11ed-a05b-0242ac120003").timestamp.map V1Timestamp.iso) ≠
      some "2023-04-20T15:30:42.000Z" := by
  decide

/-- Witness for C2: the amended statement applied at the concrete version-1
identifier of the spec. -/
theorem analyzeUUID_v1_timestamp_witness :
    ∃ t, (analyzeUUID "6fa459ea-ee8a-11ed-a05b-0242ac120003").timestamp = some t ∧
      t.raw = hexToNat (((normalizeUUID "6fa459ea-ee8a-11ed-a05b-0242ac120003").data.drop 12).take 4) % 4096 * 281474976710656 +
        hexToNat (((normalizeUUID "6fa459ea-ee8a-11ed-a05b-0242ac120003").data.drop 8).take 4) * 4294967296 +
        hexToNat ((normalizeUUID "6fa459ea-ee8a-11ed-a05b-0242ac120003").data.take 8) ∧
      t.unix = Int.tdiv ((t.raw : Int) - 122192928000000000) 10000 ∧
      t.raw < 1152921504606846976 :=
  analyzeUUID_v1_timestamp "6fa459ea-ee8a-11ed-a05b-0242ac120003" (by decide) (by decide)


/-!  ## Collision detection -/

theorem contains_iff_mem {l : List String} {a : String} : l.contains a = true ↔ a ∈ l := by
  show List.elem a l = true ↔ a ∈ l
  rw [List.elem_eq_mem, decide_eq_true_eq]

theorem checkCollisionsGo_snd (rest : List String) :
    ∀ (i : Nat) (seen : List String) (dups : List CollisionEntry) (earlier : List String),
      (∀ m : String, seen.contains m = true ↔ m ∈ earlier.map collNormalize) →
      (checkCollisionsGo rest i seen dups).2 = dups ++ collisionSpecAux rest earlier i := by
  induction rest with
  | nil =>
    intro i seen dups earlier h
    simp [checkCollisionsGo, collisionSpecAux]
  | cons u rest ih =>
    intro i seen dups earlier h
    simp only [checkCollisionsGo, collisionSpecAux]
    by_cases hmem : collNormalize u ∈ earlier.map collNormalize
    · have hs : seen.contains (collNormalize u) = true := (h _).mpr hmem
      have he : (earlier.map collNormalize).contains (collNormalize u) = true :=
        contains_iff_mem.mpr hmem
      rw [hs, he]
      simp only [if_true]
      have hinv : ∀ m : String, seen.contains m = true ↔
          m ∈ (earlier ++ [u]).map collNormalize := by
        intro m
        rw [h m]
        simp only [List.map_append, List.mem_append, List.map_cons, List.map_nil,
          List.mem_singleton]
        constructor
        · exact fun hm => Or.inl hm
        · rintro (hm | rfl)
          · exact hm
          · exact hmem
      rw [ih (i + 1) seen (dups ++ [CollisionEntry.mk u i]) (earlier ++ [u]) hinv]
      simp
    · have hs : seen.contains (collNormalize u) = false := by
        rw [Bool.eq_false_iff]
        intro hc
        exact hmem ((h _).mp hc)
      have he : (earlier.map collNormalize).contains (collNormalize u) = false := by
        rw [Bool.eq_false_iff]
        intro hc
        exact hmem (contains_iff_mem.mp hc)
      rw [hs, he]
      simp only [Bool.false_eq_true, if_false]
      refine ih (i + 1) (seen ++ [collNormalize u]) dups (earlier ++ [u]) ?_
      intro m
      rw [contains_iff_mem (l := seen ++ [collNormalize u])]
      rw [List.mem_append, List.mem_singleton]
      rw [← contains_iff_mem (l := seen), h m]
      simp only [List.map_append, List.mem_append, List.map_cons, List.map_nil,
        List.mem_singleton]

theorem checkCollisionsGo_fst (rest : List String) :
    ∀ (i : Nat) (seen : List String) (dups : List CollisionEntry),
      (checkCollisionsGo rest i seen dups).1 =
        rest.foldl
          (fun acc u => if acc.contains (collNormalize u) then acc
                        else acc ++ [collNormalize u]) seen := by
  induction rest with
  | nil =>
    intro i seen dups
    simp [checkCollisionsGo]
  | cons u rest ih =>
    intro i seen dups
    simp only [checkCollisionsGo, List.foldl_cons]
    cases hc : seen.contains (collNormalize u) <;>
      simp only [Bool.false_eq_true, if_false, if_true] <;> exact ih _ _ _

theorem foldIns_nodup_toFinset (rest : List String) :
    ∀ seen : List String, seen.Nodup →
      (rest.foldl (fun acc u => if acc.contains (collNormalize u) then acc
                                else acc ++ [collNormalize u]) seen).Nodup ∧
      (rest.foldl (fun acc u => if acc.contains (collNormalize u) then acc
                                else acc ++ [collNormalize u]) seen).toFinset =
        seen.toFinset ∪ (rest.map collNormalize).toFinset := by
  induction rest with
  | nil =>
    intro seen h
    simp [h]
  | cons u rest ih =>
    intro seen h
    simp only [List.foldl_cons, List.map_cons, List.toFinset_cons]
    cases hc : seen.contains (collNormalize u)
    · simp only [Bool.false_eq_true, if_false]
      have hnotmem : collNormalize u ∉ seen := by
        intro hm
        rw [contains_iff_mem.mpr hm] at hc
        exact Bool.true_eq_false.mp hc
      have hnd : (seen ++ [collNormalize u]).Nodup := by
        rw [List.nodup_append]
        refine ⟨h, List.nodup_singleton _, ?_⟩
        intro a ha hb
        rw [List.mem_singleton] at hb
        subst hb
        exact hnotmem ha
      obtain ⟨h1, h2⟩ := ih (seen ++ [collNormalize u]) hnd
      refine ⟨h1, ?_⟩
      rw [h2, List.toFinset_append]
      ext a
      simp only [Finset.mem_union, List.mem_toFinset, List.mem_singleton,
        Finset.mem_insert]
      tauto
    · simp only [if_true]
      have hmem : collNormalize u ∈ seen := contains_iff_mem.mp hc
      obtain ⟨h1, h2⟩ := ih seen h
      refine ⟨h1, ?_⟩
      rw [h2]
      ext a
      simp only [Finset.mem_union, List.mem_toFinset, Finset.mem_insert]
      constructor
      · rintro (ha | ha)
        · exact Or.inl ha
        · exact Or.inr (Or.inr ha)
      · rintro (ha | rfl | ha)
        · exact Or.inl ha
        · exact Or.inl hmem
        · exact Or.inr ha

/-- C3: `checkCollisions` records an element as a collision exactly at each
index whose normalized form (lowercased, dashes stripped) already occurred at
a strictly earlier index, never at the first occurrence; `unique` is the
number of distinct normalized forms and `duplicates` the number of recorded
collisions; the `[a, a]` and mixed-case/compact examples behave as claimed,
comparison being normalized-value equality. -/
theorem checkCollisions_spec (uuids : List String) :
    (checkCollisions uuids).total = uuids.length ∧
    (checkCollisions uuids).collisions = collisionSpec uuids ∧
    (checkCollisions uuids).duplicates = (collisionSpec uuids).length ∧
    (checkCollisions uuids).unique = (uuids.map collNormalize).toFinset.card ∧
    (∀ a : String, checkCollisions [a, a] =
      { total := 2, unique := 1, duplicates := 1,
        collisions := [{ uuid := a, index := 1 }] }) ∧
    checkCollisions ["F47AC10B-58CC-4372-A567-0E02B2C3D479",
      "f47ac10b58cc4372a5670e02b2c3d479"] =
      { total := 2, unique := 1, duplicates := 1,
        collisions := [{ uuid := "f47ac10b58cc4372a5670e02b2c3d479", index := 1 }] } := by
  have hbase : ∀ m : String, (List.nil (α := String)).contains m = true ↔
      m ∈ (List.nil (α := String)).map collNormalize := by
    intro m
    simp [List.contains, List.elem]
  have hsnd := checkCollisionsGo_snd uuids 0 [] [] [] hbase
  have hfst := checkCollisionsGo_fst uuids 0 [] []
  obtain ⟨hnd, hset⟩ := foldIns_nodup_toFinset uuids [] List.nodup_nil
  refine ⟨rfl, ?_, ?_, ?_, ?_, by decide⟩
  · show (checkCollisionsGo uuids 0 [] []).2 = collisionSpec uuids
    rw [hsnd, collisionSpec, List.nil_append]
  · show (checkCollisionsGo uuids 0 [] []).2.length = (collisionSpec uuids).length
    rw [hsnd, collisionSpec, List.nil_append]
  · show (checkCollisionsGo uuids 0 [] []).1.length = (uuids.map collNormalize).toFinset.card
    rw [hfst, ← List.toFinset_card_of_nodup hnd, hset]
    simp
  · intro a
    simp [checkCollisions, checkCollisionsGo, List.contains, List.elem]


/-!  ## ASCII case mapping facts -/

theorem toNat_ofNat_of_lt {n : Nat} (h : n < 55296) : (Char.ofNat n).toNat = n := by
  rw [Char.ofNat, dif_pos (Or.inl h)]
  rfl

theorem char_eq_iff_toNat {c d : Char} : c = d ↔ c.toNat = d.toNat :=
  ⟨fun h => h ▸ rfl, fun h => Char.ext (UInt32.ext h)⟩

theorem toLower_of_upper {c : Char} (h : 65 ≤ c.toNat ∧ c.toNat ≤ 90) :
    (Char.toLower c).toNat = c.toNat + 32 := by
  unfold Char.toLower
  rw [if_pos ⟨h.1, h.2⟩]
  exact toNat_ofNat_of_lt (by omega)

theorem toLower_of_not_upper {c : Char} (h : ¬(65 ≤ c.toNat ∧ c.toNat ≤ 90)) :
    Char.toLower c = c := by
  unfold Char.toLower
  rw [if_neg ?_]
  intro hc
  exact h ⟨hc.1, hc.2⟩

theorem toUpper_of_lower {c : Char} (h : 97 ≤ c.toNat ∧ c.toNat ≤ 122) :
    (Char.toUpper c).toNat = c.toNat - 32 := by
  unfold Char.toUpper
  rw [if_pos ⟨h.1, h.2⟩]
  exact toNat_ofNat_of_lt (by omega)

theorem toUpper_of_not_lower {c : Char} (h : ¬(97 ≤ c.toNat ∧ c.toNat ≤ 122)) :
    Char.toUpper c = c := by
  unfold Char.toUpper
  rw [if_neg ?_]
  intro hc
  exact h ⟨hc.1, hc.2⟩

theorem toLower_idem_char (c : Char) :
    Char.toLower (Char.toLower c) = Char.toLower c := by
  by_cases h : 65 ≤ c.toNat ∧ c.toNat ≤ 90
  · have h1 := toLower_of_upper h
    apply toLower_of_not_upper
    rw [h1]
    omega
  · rw [toLower_of_not_upper h, toLower_of_not_upper h]

theorem toLower_ne_dash {c : Char} (h : c ≠ '-') : Char.toLower c ≠ '-' := by
  by_cases hu : 65 ≤ c.toNat ∧ c.toNat ≤ 90
  · intro he
    have h1 := toLower_of_upper hu
    rw [he] at h1
    have h2 : ('-').toNat = 45 := rfl
    omega
  · rw [toLower_of_not_upper hu]
    exact h

theorem toUpper_ne_dash {c : Char} (h : c ≠ '-') : Char.toUpper c ≠ '-' := by
  by_cases hu : 97 ≤ c.toNat ∧ c.toNat ≤ 122
  · intro he
    have h1 := toUpper_of_lower hu
    rw [he] at h1
    have h2 : ('-').toNat = 45 := rfl
    omega
  · rw [toUpper_of_not_lower hu]
    exact h

theorem toLower_toUpper_of_hex {c : Char} (h : isLowerHexDigit c = true) :
    Char.toLower (Char.toUpper c) = c := by
  simp only [isLowerHexDigit, Bool.or_eq_true, Bool.and_eq_true, decide_eq_true_eq] at h
  rcases h with ⟨h1, h2⟩ | ⟨h1, h2⟩
  · rw [toUpper_of_not_lower (by omega)]
    exact toLower_of_not_upper (by omega)
  · have hu := toUpper_of_lower (c := c) ⟨by omega, by omega⟩
    have hcond : 65 ≤ (Char.toUpper c).toNat ∧ (Char.toUpper c).toNat ≤ 90 := by
      rw [hu]
      omega
    have hl := toLower_of_upper hcond
    rw [char_eq_iff_toNat, hl, hu]
    omega

/-!  ## String-level conversion facts -/

theorem toLowerStr_idem (s : String) : toLowerStr (toLowerStr s) = toLowerStr s := by
  simp only [toLowerStr, List.map_map]
  apply congrArg String.mk
  exact List.map_congr_left (fun a _ => toLower_idem_char a)

theorem toLowerStr_toUpperStr_of_hex {s : String}
    (h : ∀ c ∈ s.data, isLowerHexDigit c = true) :
    toLowerStr (toUpperStr s) = s := by
  simp only [toLowerStr, toUpperStr, List.map_map]
  have he : s.data.map (Char.toLower ∘ Char.toUpper) = s.data :=
    (List.map_congr_left (fun a ha => toLower_toUpper_of_hex (h a ha))).trans
      (List.map_id s.data)
  rw [he]

theorem stripDashes_toUpperStr (s : String) :
    stripDashes (toUpperStr s) = toUpperStr (stripDashes s) := by
  simp only [stripDashes, toUpperStr, List.filter_map]
  apply congrArg String.mk
  apply congrArg (List.map Char.toUpper)
  apply List.filter_congr
  intro a _
  show (Char.toUpper a != '-') = (a != '-')
  by_cases ha : a = '-'
  · subst ha
    rfl
  · rw [bne_iff_ne.mpr (toUpper_ne_dash ha), bne_iff_ne.mpr ha]

theorem list_partition32 (l : List Char) (h : l.length = 32) :
    l.take 8 ++ ((l.drop 8).take 4 ++ ((l.drop 12).take 4 ++
      ((l.drop 16).take 4 ++ (l.drop 20).take 12))) = l := by
  have e4 : (l.drop 20).take 12 = l.drop 20 :=
    List.take_of_length_le (by simp [List.length_drop, h])
  have e3 : (l.drop 16).take 4 ++ l.drop 20 = l.drop 16 := by
    have hd : l.drop 20 = (l.drop 16).drop 4 := by
      rw [List.drop_drop]
    rw [hd, List.take_append_drop]
  have e2 : (l.drop 12).take 4 ++ l.drop 16 = l.drop 12 := by
    have hd : l.drop 16 = (l.drop 12).drop 4 := by
      rw [List.drop_drop]
    rw [hd, List.take_append_drop]
  have e1 : (l.drop 8).take 4 ++ l.drop 12 = l.drop 8 := by
    have hd : l.drop 12 = (l.drop 8).drop 4 := by
      rw [List.drop_drop]
    rw [hd, List.take_append_drop]
  rw [e4, e3, e2, e1, List.take_append_drop]

theorem stripDashes_formatted32 {n : String} (hlen : n.length = 32)
    (hnd : ∀ c ∈ n.data, c ≠ '-') : stripDashes (formatted32 n) = n := by
  have hpart : ∀ l : List Char, l ⊆ n.data →
      l.filter (fun c => c != '-') = l := by
    intro l hsub
    exact List.filter_eq_self.mpr (fun a ha => bne_iff_ne.mpr (hnd a (hsub ha)))
  have hdash : ("-" : String).data = ['-'] := rfl
  show String.mk ((formatted32 n).data.filter (fun c => c != '-')) = n
  have hdata : (formatted32 n).data.filter (fun c => c != '-') = n.data := by
    simp only [formatted32, sliceStr, String.data_append, hdash, List.filter_append,
      List.filter_cons, List.singleton_append, List.drop_zero, List.append_assoc]
    norm_num
    rw [hpart _ (List.take_subset _ _),
      hpart _ ((List.take_subset _ _).trans (List.drop_subset _ _)),
      hpart _ ((List.take_subset _ _).trans (List.drop_subset _ _)),
      hpart _ ((List.take_subset _ _).trans (List.drop_subset _ _)),
      hpart _ ((List.take_subset _ _).trans (List.drop_subset _ _))]
    exact list_partition32 n.data hlen
  rw [hdata]

/-- C6: round-trip of format conversion: whenever
`convertFormat(x, {uppercase:true})` succeeds with value `y`,
`convertFormat(y, {uppercase:false})` returns the normalized lowercase dashed
form of `x`. -/
theorem convertUUIDFormat_roundtrip (x y : String)
    (h : convertUUIDFormat x true false = Except.ok y) :
    convertUUIDFormat y false false = Except.ok (formatted32 (normalizeUUID x)) := by
  by_cases hlen : (normalizeUUID x).length = 32
  · by_cases hval : validate (formatted32 (normalizeUUID x)) = false
    · simp [convertUUIDFormat, hlen, hval] at h
    · simp only [convertUUIDFormat, hlen, hval] at h
      norm_num at h
      have hvalid : validate (formatted32 (normalizeUUID x)) = true := by
        rw [← Bool.not_eq_false]
        exact hval
      have hnd : ∀ c ∈ (normalizeUUID x).data, c ≠ '-' := by
        intro c hc
        simp only [normalizeUUID, toLowerStr, stripDashes, List.mem_map] at hc
        obtain ⟨c₀, hc₀, rfl⟩ := hc
        have hb := List.of_mem_filter (p := fun c => c != '-') hc₀
        exact toLower_ne_dash (bne_iff_ne.mp hb)
      have hlow : toLowerStr (normalizeUUID x) = normalizeUUID x :=
        toLowerStr_idem (stripDashes x)
      have hstrip : stripDashes (formatted32 (normalizeUUID x)) = normalizeUUID x :=
        stripDashes_formatted32 hlen hnd
      have hnn : normalizeUUID (formatted32 (normalizeUUID x)) = normalizeUUID x := by
        show toLowerStr (stripDashes (formatted32 (normalizeUUID x))) = normalizeUUID x
        rw [hstrip]
        exact hlow
      have hhex : ∀ c ∈ (normalizeUUID x).data, isLowerHexDigit c = true := by
        have h2 := (validate_eq_true_iff (formatted32 (normalizeUUID x))).mp hvalid
        rw [hnn] at h2
        exact h2.2
      have hy : normalizeUUID y = normalizeUUID x := by
        rw [← h]
        show toLowerStr (stripDashes (toUpperStr (formatted32 (normalizeUUID x)))) =
          normalizeUUID x
        rw [stripDashes_toUpperStr, hstrip]
        exact toLowerStr_toUpperStr_of_hex hhex
      simp [convertUUIDFormat, hy, hlen, hvalid]
  · simp [convertUUIDFormat, hlen] at h

/-- Witness for C6: the round trip at a concrete identifier. -/
theorem convertUUIDFormat_roundtrip_witness :
    convertUUIDFormat "F47AC10B-58CC-4372-A567-0E02B2C3D479" false false =
      Except.ok (formatted32 (normalizeUUID "f47ac10b-58cc-4372-a567-0e02b2c3d479")) :=
  convertUUIDFormat_roundtrip "f47ac10b-58cc-4372-a567-0e02b2c3d479"
    "F47AC10B-58CC-4372-A567-0E02B2C3D479" (by rfl)


end UUIDUtils
